import Mathlib

set_option linter.unusedVariables false

/-! Shallow embedding of chainloader (src/index.js): a Loader that, given a
batch of blockchain transactions, parses them into intents, resolves the
transacting parties, derives shared encryption keys, batch-fetches payloads
from the keeper, recovers permission records, batch-fetches and decrypts the
shared files those records point to, and returns the collected results
sorted back by the position marker assigned after parsing.

The asynchronous JS code is embedded synchronously: every collaborator is a
pure function in an `Env` record, a promise rejection is `Except.error` or
`Option.none`, and `Q.allSettled`-style joins become index-aligned list
maps.  Strings and byte buffers are represented by `Nat` codes (hex encoding
of a buffer is injective, so a buffer and its hex string share a code). -/

namespace Chainloader

/-- Transaction type tag (`TxData.types` of tradle-tx-data); the loader only
distinguishes `public` from non-public (permission) transactions. -/
inductive TxType where
  | public
  | permission
deriving DecidableEq, Repr

/-- Key material of a resolved identity: the optional private component
(JS `getResult(key, 'priv')`) and the optional public component
(JS `getResult(key, 'value')`).  The accessor-vs-plain-field distinction of
`getResult` is flattened into a plain optional field. -/
structure IdKey where
  priv : Option Nat
  value : Option Nat
deriving DecidableEq, Repr

/-- A resolved identity as produced by the injected `lookup`: an object
exposing a `key` with private/public components. -/
structure Identity where
  key : IdKey
deriving DecidableEq, Repr

/-- Outcome of one `lookup(addr, wantPrivate)` promise: it either rejects or
fulfills with a match or a miss.  (`Q.allSettled` followed by reading
`r.value` turns both a rejection and a miss into an absent result.) -/
inductive LookupOutcome where
  | reject
  | fulfilled (v : Option Identity)
deriving DecidableEq, Repr

/-- A tradle-permission record: `fileKeyString()` names the shared file's
storage key, `decryptionKeyBuf()` is its optional decryption key. -/
structure Permission where
  fileKeyString : Nat
  decryptionKeyBuf : Option Nat
deriving DecidableEq, Repr

/-- A parsed transaction (tradle-tx-data `TxInfo`) as it accretes fields on
its way through the pipeline; fields that the JS code only assigns later in
the pipeline are `Option`s that start out absent. -/
structure TxInfo where
  txType : TxType
  addressesFrom : List (Option Nat)
  addressesTo : List (Option Nat)
  txData : Nat
  fromMatch : Option Identity := none
  toMatch : Option Identity := none
  encryptedKey : Option Nat := none
  sharedKey : Option Nat := none
  key : Option Nat := none
  permissionKey : Option Nat := none
  pIdx : Option Nat := none
  data : Option Nat := none
  encryptedPermission : Option Nat := none
  permission : Option Permission := none
  encryptedData : Option Nat := none
deriving DecidableEq, Repr

/-- One element of the batch passed to `load`: either a raw transaction or
an already-parsed `TxInfo` (the loader accepts both). -/
inductive TxInput where
  | raw (t : Nat)
  | parsed (p : TxInfo)
deriving DecidableEq, Repr

/-- The injected collaborators of a `Loader` instance:
`lookup` (optional identity resolver), `keeper.getMany` (batched fetch,
may fail as a whole; per-key absence is `none`), `TxInfo.parse` and
`TxInfo.validate` of the decoder (network name and OP_RETURN marker
configuration are absorbed into `parse`; `validate` of a raw, non-parsed
input is `false`, which `parse` sees as the whole input), `Permission.recover`
(throw modeled as `none`), `utils.decrypt` (throw modeled as `none`) and
`utils.sharedEncryptionKey` (the ECDH primitive). -/
structure Env where
  lookup : Option (Nat → Bool → LookupOutcome)
  getMany : List (Option Nat) → Except String (List (Option Nat))
  parse : TxInput → Option TxInfo
  validate : TxInfo → Bool
  recover : Nat → Nat → Option Permission
  decrypt : Nat → Nat → Option Nat
  sharedEncryptionKey : Nat → Nat → Nat

/-- The object `_lookupParties` resolves with: `{ from: ..., to: ... }`,
each side possibly absent.  (In JS it is always a truthy object.) -/
structure Matches where
  fromM : Option Identity
  toM : Option Identity
deriving DecidableEq, Repr

/-- `Loader.prototype._lookupParties`: with no resolver configured it
resolves with the empty match object; otherwise it looks every address of
both sides up concurrently (`wantPrivate = true`), joins with
`Q.allSettled` (so a falsy address or a rejected lookup yields an absent
result), takes as `from` the first truthy result among the sender
addresses, and as `to` the first truthy result among the recipient
addresses whose `key.value` differs from the chosen sender's. -/
def _lookupParties (env : Env) (fromA toA : List (Option Nat)) : Matches :=
  match env.lookup with
  | none => ⟨none, none⟩
  | some lookup =>
    let allAddrs := fromA ++ toA
    let results : List (Option Identity) := allAddrs.map (fun f =>
      match f with
      | none => none
      | some a =>
        match lookup a true with
        | .reject => none
        | .fulfilled v => v)
    let mFrom := (results.take fromA.length).findSome? (fun r => r)
    let mTo := (results.drop fromA.length).findSome? (fun r =>
      match r, mFrom with
      | some r1, some f =>
        if f.key.value ≠ r1.key.value then some r1 else none
      | _, _ => none)
    ⟨mFrom, mTo⟩

/-- `Loader.prototype._getSharedKey`: derive the shared encryption key from
the from-side private key and the to-side public key, falling back (when the
from side has no private component) to the to-side private key and the
from-side public key; any missing piece gives `none`. -/
def _getSharedKey (env : Env) (fromM toM : Option Identity) : Option Nat :=
  match fromM, toM with
  | some fromI, some toI =>
    let fromKey := fromI.key
    let toKey := toI.key
    let priv := fromKey.priv
    let pub := toKey.value
    let priv2 := if priv.isSome then priv else toKey.priv
    let pub2 := if priv.isSome then pub else fromKey.value
    match priv2, pub2 with
    | some p, some v => some (env.sharedEncryptionKey p v)
    | _, _ => none
  | _, _ => none

/-- `Loader.prototype._processTxInfo`: reject (drop) when the candidate does
not validate; resolve the parties and record them on the intent; a public
intent's lookup key is its payload (hex); a non-public intent needs a shared
key (else it is dropped) with which its payload decrypts to the permission
key (else it is dropped).  (The JS `if (!matches) reject` branch is dead:
`_lookupParties` always resolves with a truthy object.) -/
def _processTxInfo (env : Env) (parsed : TxInfo) : Option TxInfo :=
  if env.validate parsed = false then none
  else
    let ms := _lookupParties env parsed.addressesFrom parsed.addressesTo
    let parsed1 := { parsed with fromMatch := ms.fromM, toMatch := ms.toM }
    if parsed1.txType = TxType.public then
      some { parsed1 with key := some parsed1.txData }
    else
      let parsed2 := { parsed1 with encryptedKey := some parsed1.txData }
      match _getSharedKey env ms.fromM ms.toM with
      | none => none
      | some sk =>
        let parsed3 := { parsed2 with sharedKey := some sk }
        match env.decrypt parsed3.txData sk with
        | none => none
        | some d => some { parsed3 with key := some d, permissionKey := some d }

/-- The candidate `TxInfo` chosen by `Loader.prototype._parseTx`: an input
that validates is passed through unchanged, anything else is given to the
decoder's `parse`. -/
def candidateOf (env : Env) (tx : TxInput) : Option TxInfo :=
  match tx with
  | .parsed p => if env.validate p then some p else env.parse tx
  | .raw _ => env.parse tx

/-- `Loader.prototype._parseTx`: pick the candidate (pass-through or decode),
reject when it is absent, then run `_processTxInfo` on it.  All rejection
reasons are later discarded by `getSuccessful`, so the result is an
`Option`. -/
def _parseTx (env : Env) (tx : TxInput) : Option TxInfo :=
  match candidateOf env tx with
  | none => none
  | some parsed => _processTxInfo env parsed

/-- `Loader.prototype._parseTxs`: run `_parseTx` over the batch and keep the
fulfilled results (`getSuccessful` = `Q.allSettled` + filter fulfilled). -/
def _parseTxs (env : Env) (txs : List TxInput) : List TxInfo :=
  (txs.map (_parseTx env)).filterMap id

/-- `parsedTxs.forEach(function (p, i) { p._pIdx = i })`, with the counter
made explicit: assign each surviving parsed transaction its position in the
surviving list. -/
def withPIdxFrom : Nat → List TxInfo → List TxInfo
  | _, [] => []
  | i, p :: ps => { p with pIdx := some i } :: withPIdxFrom (i + 1) ps

def withPIdx (ps : List TxInfo) : List TxInfo :=
  withPIdxFrom 0 ps

/-- Modelled from the spec: `pluck` (required from `./pluck`, a repository
file not present under src/) extracts one named property from each element;
the loader uses it only as `pluck(list, 'key')`, building the key list for a
batched fetch by taking each item's lookup key in stable order. -/
def pluck (ps : List TxInfo) : List (Option Nat) :=
  ps.map (fun p => p.key)

/-- The message of the error `fetchFiles` re-throws: `err.message ||
'Failed to retrieve file from keeper'`. -/
def rethrowMsg (e : String) : String :=
  if e = "" then "Failed to retrieve file from keeper" else e

/-- `Loader.prototype.fetchFiles`: one call to `keeper.getMany`; a keeper
failure is re-thrown as a fresh error carrying the keeper's message. -/
def fetchFiles (env : Env) (keys : List (Option Nat)) : Except String (List (Option Nat)) :=
  match env.getMany keys with
  | .ok vs => .ok vs
  | .error e => .error (rethrowMsg e)

/-- First-round result processing of `load` (the `fetched.forEach` body):
walk the fetched payloads in lockstep with the indexed parsed transactions
(JS indexes `parsedTxs[i]`, so a fetch list longer than the parsed list is a
`TypeError` that rejects the whole call); an absent payload drops the item;
a public item is completed with its payload; a non-public item without a
shared key is dropped; otherwise the payload must recover to a permission
record (a throw drops the item), which re-keys the item to the shared file
and queues it for the second round.  Returns (results, shared). -/
def round1 (env : Env) : List (Option Nat) → List TxInfo → Except String (List TxInfo × List TxInfo)
  | [], _ => .ok ([], [])
  | _ :: _, [] => .error "TypeError"
  | d :: ds, parsed :: ps =>
    match round1 env ds ps with
    | .error e => .error e
    | .ok rest =>
    match d with
    | none => .ok rest
    | some data =>
      if parsed.txType = TxType.public then
        .ok ({ parsed with data := some data } :: rest.1, rest.2)
      else
        match parsed.sharedKey with
        | none => .ok rest
        | some sk =>
          match env.recover data sk with
          | none => .ok rest
          | some perm =>
            .ok (rest.1,
              { parsed with
                  encryptedPermission := some data,
                  permission := some perm,
                  key := some perm.fileKeyString } :: rest.2)

/-- Second-round result processing of `load` (the `sharedFiles.forEach`
body): walk the fetched shared files in lockstep with the queued permission
items (again a list longer than `shared` is a `TypeError`, as is a queued
item without a permission record); an absent file drops the item; the item
is copied, re-keyed and given the ciphertext; when the permission record
carries a decryption key the file must decrypt (a throw drops the item);
the plaintext (or the file as-is) becomes the item's data. -/
def round2 (env : Env) : List (Option Nat) → List TxInfo → Except String (List TxInfo)
  | [], _ => .ok []
  | _ :: _, [] => .error "TypeError"
  | f :: fs, parsed :: ps =>
    match round2 env fs ps with
    | .error e => .error e
    | .ok rest =>
    match f with
    | none => .ok rest
    | some file =>
      match parsed.permission with
      | none => .error "TypeError"
      | some perm =>
        let parsed1 := { parsed with
          key := some perm.fileKeyString, encryptedData := some file }
        match perm.decryptionKeyBuf with
        | none => .ok ({ parsed1 with data := some file } :: rest)
        | some dk =>
          match env.decrypt file dk with
          | none => .ok rest
          | some plain => .ok ({ parsed1 with data := some plain } :: rest)

/-- The order `results.sort(function (a, b) { return a._pIdx - b._pIdx })`
sorts by: ascending position marker. -/
def pIdxLe (a b : TxInfo) : Prop :=
  a.pIdx.getD 0 ≤ b.pIdx.getD 0

instance : DecidableRel pIdxLe :=
  fun a b => Nat.decLe (a.pIdx.getD 0) (b.pIdx.getD 0)

instance : IsTotal TxInfo pIdxLe :=
  ⟨fun a b => Nat.le_total (a.pIdx.getD 0) (b.pIdx.getD 0)⟩

instance : IsTrans TxInfo pIdxLe :=
  ⟨fun _ _ _ => Nat.le_trans⟩

/-- `delete p._pIdx`: the position marker is removed from an item before the
collection is returned. -/
def clearPIdx (p : TxInfo) : TxInfo :=
  { p with pIdx := none }

/-- The final step of `load`: sort the collected results back by position
marker (all markers are distinct, so any correct sort models the JS
`Array.prototype.sort`), then delete the marker from every item. -/
def finalize (results : List TxInfo) : List TxInfo :=
  (List.insertionSort pIdxLe results).map clearPIdx

/-- A run of `Loader.prototype.load`, instrumented: `result` is what the
returned promise settles to, `calls` records the key list of every
`keeper.getMany` invocation in order, and `shared` records the second-round
queue (empty when the run never built one). -/
structure Trace where
  result : Except String (List TxInfo)
  calls : List (List (Option Nat))
  shared : List TxInfo

/-- `Loader.prototype.load`, step for step: parse the batch (an empty
surviving batch resolves with `[]` and fetches nothing); assign position
markers; fetch every item's key in one batched call (a keeper failure
rejects the call); an empty fetch result resolves with `[]`; process the
first round; if any permission records were recovered, fetch their file
keys in a second batched call and process the second round; sort everything
by position marker, delete the markers and resolve. -/
def loadTrace (env : Env) (txs : List TxInput) : Trace :=
  let parsedTxs := _parseTxs env txs
  if parsedTxs.length = 0 then ⟨.ok [], [], []⟩
  else
    let indexed := withPIdx parsedTxs
    let keys1 := pluck indexed
    match fetchFiles env keys1 with
    | .error e => ⟨.error e, [keys1], []⟩
    | .ok fetched =>
      if fetched.length = 0 then ⟨.ok [], [keys1], []⟩
      else
        match round1 env fetched indexed with
        | .error e => ⟨.error e, [keys1], []⟩
        | .ok (results1, shared) =>
          if shared.length = 0 then ⟨.ok (finalize results1), [keys1], shared⟩
          else
            let keys2 := pluck shared
            match fetchFiles env keys2 with
            | .error e => ⟨.error e, [keys1, keys2], shared⟩
            | .ok sharedFiles =>
              match round2 env sharedFiles shared with
              | .error e => ⟨.error e, [keys1, keys2], shared⟩
              | .ok results2 =>
                ⟨.ok (finalize (results1 ++ results2)), [keys1, keys2], shared⟩

/-- What the promise returned by `load` settles to. -/
def load (env : Env) (txs : List TxInput) : Except String (List TxInfo) :=
  (loadTrace env txs).result

/-- The key lists passed to `keeper.getMany`, in call order, during one
`load` run. -/
def keeperCallLog (env : Env) (txs : List TxInput) : List (List (Option Nat)) :=
  (loadTrace env txs).calls

/-- The second-round queue (items whose permission record was recovered)
of one `load` run. -/
def sharedOf (env : Env) (txs : List TxInput) : List TxInfo :=
  (loadTrace env txs).shared

/-- The key list handed to the first batched fetch (when one happens). -/
def firstRoundKeys (env : Env) (txs : List TxInput) : List (Option Nat) :=
  pluck (withPIdx (_parseTxs env txs))

/-- What one unit of stream input observably does in
`Loader.prototype._transform`: the items pushed downstream, the payloads of
emitted 'error' events, and how many times the per-unit completion callback
`done` runs. -/
structure TransformOut where
  pushed : List TxInfo
  errors : List String
  doneCount : Nat
deriving DecidableEq, Repr

/-- `Loader.prototype._transform`: run `load` on the unit; a rejection is
surfaced by emitting 'error' and calling `done()` — after which the `.done`
handler still runs on the now-fulfilled (undefined) chain and calls `done()`
a second time; a fulfilled run pushes every file downstream and calls
`done()` once. -/
def _transform (env : Env) (tx : TxInput) : TransformOut :=
  match load env [tx] with
  | .error e => ⟨[], [e], 2⟩
  | .ok files => ⟨files, [], 1⟩

/-! Claim-side vocabulary. -/

/-- The per-address lookup results for one side, in address order: a falsy
address or a rejected lookup counts as absent (this is the body of the map
over `allAddrs` in `_lookupParties`, restricted to one side). -/
def lookupResults (L : Nat → Bool → LookupOutcome) (addrs : List (Option Nat)) :
    List (Option Identity) :=
  addrs.map (fun f =>
    match f with
    | none => none
    | some a =>
      match L a true with
      | .reject => none
      | .fulfilled v => v)

/-- Spec 4.2 wording: the first non-absent result in address order. -/
def firstNonAbsent (rs : List (Option Identity)) : Option Identity :=
  rs.findSome? (fun r => r)

/-- Spec 4.2 wording: the first non-absent result whose key differs from the
chosen sender's key (absent when no sender was chosen). -/
def firstDifferent (sender : Option Identity) (rs : List (Option Identity)) :
    Option Identity :=
  rs.findSome? (fun r =>
    match r, sender with
    | some r1, some f =>
      if f.key.value ≠ r1.key.value then some r1 else none
    | _, _ => none)

/-- The same lookup capability with every rejection replaced by a miss. -/
def absorbRejects (L : Nat → Bool → LookupOutcome) : Nat → Bool → LookupOutcome :=
  fun a w =>
    match L a w with
    | .reject => .fulfilled none
    | r => r

/-- The lookup calls `_lookupParties` issues for one transaction's two
address lists: the body of the map over `allAddrs` skips a falsy address and
otherwise calls `lookup(f, true)`, so the issued calls are one per truthy
address, each requesting private material. -/
def lookupCallsOfAddrs (fromA toA : List (Option Nat)) : List (Nat × Bool) :=
  (fromA ++ toA).filterMap (fun f => f.map (fun a => (a, true)))

/-- The lookup calls one batch element causes: none when the element has no
candidate parse, fails validation, or no resolver is configured; otherwise
the calls of `_lookupParties` on the parsed intent's address lists. -/
def txLookupCalls (env : Env) (tx : TxInput) : List (Nat × Bool) :=
  match candidateOf env tx with
  | none => []
  | some parsed =>
    if env.validate parsed = false then []
    else
      match env.lookup with
      | none => []
      | some _ => lookupCallsOfAddrs parsed.addressesFrom parsed.addressesTo

/-- Every lookup call a whole `load` run issues. -/
def loadLookupCalls (env : Env) (txs : List TxInput) : List (Nat × Bool) :=
  (txs.map (txLookupCalls env)).flatten

/-- The fields of an item that no stage after `_processTxInfo` changes; a
pipeline output "derives from" the parsed transaction it agrees with on
these. -/
def coreOf (p : TxInfo) :
    TxType × Nat × List (Option Nat) × List (Option Nat) ×
      Option Identity × Option Identity × Option Nat :=
  (p.txType, p.txData, p.addressesFrom, p.addressesTo, p.fromMatch, p.toMatch,
    p.sharedKey)

/-- The surviving parsed transactions tagged with the input position of the
transaction each one derives from (bookkeeping the code itself does not
keep; `load`'s own marker is the position in the surviving list). -/
def parsedWithPosFrom (env : Env) : Nat → List TxInput → List (Nat × TxInfo)
  | _, [] => []
  | j, t :: ts =>
    match _parseTx env t with
    | none => parsedWithPosFrom env (j + 1) ts
    | some p => (j, p) :: parsedWithPosFrom env (j + 1) ts

def parsedWithPos (env : Env) (txs : List TxInput) : List (Nat × TxInfo) :=
  parsedWithPosFrom env 0 txs

/-- The input position of the transaction a finished item derives from,
read off through the item's position marker. -/
def origPos (env : Env) (txs : List TxInput) (r : TxInfo) : Nat :=
  ((parsedWithPos env txs).map Prod.fst).getD (r.pIdx.getD 0) 0

/-- Spec 4.5 step 3 wording for the first-round key list: the lookup key of
every public intent followed by the lookup key of every surviving permission
intent, each group in stable order. -/
def specFirstRoundKeys (env : Env) (txs : List TxInput) : List (Option Nat) :=
  pluck ((withPIdx (_parseTxs env txs)).filter
      (fun p => p.txType == TxType.public)) ++
    pluck ((withPIdx (_parseTxs env txs)).filter
      (fun p => p.txType != TxType.public))

/-! Concrete collaborators used by witnesses and counterexamples. -/

/-- A concrete public intent: payload 7, sender address 1, recipient
address 2. -/
def pubInfo : TxInfo :=
  { txType := .public, addressesFrom := [some 1], addressesTo := [some 2], txData := 7 }

/-- A concrete permission intent: payload 9, sender address 1, recipient
address 2. -/
def permInfo : TxInfo :=
  { txType := .permission, addressesFrom := [some 1], addressesTo := [some 2], txData := 9 }

/-- The concrete lookup capability of `env0`: every address resolves to an
identity whose private and public components both equal the address. -/
def lookup0 : Nat → Bool → LookupOutcome :=
  fun a _w => LookupOutcome.fulfilled (some ⟨⟨some a, some a⟩⟩)

/-- A concrete, well-behaved environment: every address resolves via
`lookup0`, the keeper stores `k + 1000` at key `k`, raw transaction 1
decodes to `pubInfo`, raw transaction 2 to `permInfo`, everything else fails
to decode, and recovery/decryption always succeed arithmetically. -/
def env0 : Env where
  lookup := some lookup0
  getMany := fun ks => .ok (ks.map (fun k => k.map (fun v => v + 1000)))
  parse := fun tx =>
    match tx with
    | .raw 1 => some pubInfo
    | .raw 2 => some permInfo
    | _ => none
  validate := fun _ => true
  recover := fun d sk => some ⟨d + sk, none⟩
  decrypt := fun c k => some (c + k)
  sharedEncryptionKey := fun a b => 100 * a + b

/-- `env0` with a keeper whose every batched fetch fails. -/
def envErr : Env :=
  { env0 with getMany := fun _ => .error "boom" }

/-- What `_parseTx env0` makes of raw transaction 1 (the public intent with
its parties resolved and its lookup key set). -/
def pubProcessed : TxInfo :=
  { txType := .public, addressesFrom := [some 1], addressesTo := [some 2],
    txData := 7, fromMatch := some ⟨⟨some 1, some 1⟩⟩,
    toMatch := some ⟨⟨some 2, some 2⟩⟩, key := some 7 }

/-! Helper lemmas. -/

theorem lookupResults_absorb (L : Nat → Bool → LookupOutcome)
    (addrs : List (Option Nat)) :
    lookupResults (absorbRejects L) addrs = lookupResults L addrs := by
  unfold lookupResults absorbRejects
  apply List.map_congr_left
  intro f _
  cases f with
  | none => rfl
  | some a => cases h : L a true <;> simp [h]

theorem withPIdxFrom_length (i : Nat) (l : List TxInfo) :
    (withPIdxFrom i l).length = l.length := by
  induction l generalizing i with
  | nil => rfl
  | cons p ps ih => simp [withPIdxFrom, ih]

theorem withPIdxFrom_mem (i : Nat) (l : List TxInfo) (r : TxInfo)
    (h : r ∈ withPIdxFrom i l) :
    ∃ k p, l[k]? = some p ∧ p ∈ l ∧ r = { p with pIdx := some (i + k) } := by
  induction l generalizing i with
  | nil => simp [withPIdxFrom] at h
  | cons p ps ih =>
    rw [withPIdxFrom, List.mem_cons] at h
    cases h with
    | inl h =>
      exact ⟨0, p, by simp, List.mem_cons_self _ _, by simpa using h⟩
    | inr h =>
      obtain ⟨k, q, hq, hqmem, hr⟩ := ih (i + 1) h
      refine ⟨k + 1, q, by simpa using hq, List.mem_cons_of_mem _ hqmem, ?_⟩
      have hik : i + (k + 1) = i + 1 + k := by omega
      rw [hik]
      exact hr

theorem pluck_withPIdxFrom (i : Nat) (l : List TxInfo) :
    pluck (withPIdxFrom i l) = pluck l := by
  induction l generalizing i with
  | nil => rfl
  | cons p ps ih => simp [withPIdxFrom, pluck] at ih ⊢; exact ih _

theorem round1_facts (env : Env) (ds : List (Option Nat)) :
    ∀ (ps rs sh : List TxInfo), round1 env ds ps = .ok (rs, sh) →
      (∀ r ∈ rs, (∃ p ∈ ps, coreOf r = coreOf p ∧ r.pIdx = p.pIdx) ∧
        r.txType = TxType.public) ∧
      (∀ r ∈ sh, (∃ p ∈ ps, coreOf r = coreOf p ∧ r.pIdx = p.pIdx) ∧
        r.txType ≠ TxType.public ∧ r.permission.isSome = true) := by
  induction ds with
  | nil =>
    intro ps rs sh h
    simp only [round1, Except.ok.injEq, Prod.mk.injEq] at h
    obtain ⟨h1, h2⟩ := h
    subst h1; subst h2
    simp
  | cons d ds ih =>
    intro ps rs sh h
    cases ps with
    | nil => simp [round1] at h
    | cons parsed ps2 =>
      rw [round1] at h
      cases hrec : round1 env ds ps2 with
      | error e => simp [hrec] at h
      | ok rest =>
        obtain ⟨rs2, sh2⟩ := rest
        have ih2 := ih ps2 rs2 sh2 hrec
        have lift : ∀ {r : TxInfo},
            (∃ p ∈ ps2, coreOf r = coreOf p ∧ r.pIdx = p.pIdx) →
            ∃ p ∈ parsed :: ps2, coreOf r = coreOf p ∧ r.pIdx = p.pIdx := by
          rintro r ⟨p, hp, hc⟩
          exact ⟨p, List.mem_cons_of_mem _ hp, hc⟩
        cases d with
        | none =>
          simp only [hrec, Except.ok.injEq, Prod.mk.injEq] at h
          obtain ⟨h1, h2⟩ := h
          subst h1; subst h2
          exact ⟨fun r hr => ⟨lift (ih2.1 r hr).1, (ih2.1 r hr).2⟩,
            fun r hr => ⟨lift (ih2.2 r hr).1, (ih2.2 r hr).2⟩⟩
        | some data =>
          cases htt : parsed.txType with
          | public =>
            simp only [hrec, htt, reduceIte, Except.ok.injEq, Prod.mk.injEq] at h
            obtain ⟨h1, h2⟩ := h
            subst h1; subst h2
            refine ⟨fun r hr => ?_, fun r hr => ⟨lift (ih2.2 r hr).1, (ih2.2 r hr).2⟩⟩
            rw [List.mem_cons] at hr
            cases hr with
            | inl hr =>
              subst hr
              exact ⟨⟨parsed, List.mem_cons_self _ _, by simp [coreOf, htt], rfl⟩, rfl⟩
            | inr hr => exact ⟨lift (ih2.1 r hr).1, (ih2.1 r hr).2⟩
          | permission =>
            simp only [hrec, htt, reduceCtorEq, reduceIte] at h
            cases hsk : parsed.sharedKey with
            | none =>
              simp only [hsk, Except.ok.injEq, Prod.mk.injEq] at h
              obtain ⟨h1, h2⟩ := h
              subst h1; subst h2
              exact ⟨fun r hr => ⟨lift (ih2.1 r hr).1, (ih2.1 r hr).2⟩,
                fun r hr => ⟨lift (ih2.2 r hr).1, (ih2.2 r hr).2⟩⟩
            | some sk =>
              cases hperm : env.recover data sk with
              | none =>
                simp only [hsk, hperm, Except.ok.injEq, Prod.mk.injEq] at h
                obtain ⟨h1, h2⟩ := h
                subst h1; subst h2
                exact ⟨fun r hr => ⟨lift (ih2.1 r hr).1, (ih2.1 r hr).2⟩,
                  fun r hr => ⟨lift (ih2.2 r hr).1, (ih2.2 r hr).2⟩⟩
              | some perm =>
                simp only [hsk, hperm, Except.ok.injEq, Prod.mk.injEq] at h
                obtain ⟨h1, h2⟩ := h
                subst h1; subst h2
                refine ⟨fun r hr => ⟨lift (ih2.1 r hr).1, (ih2.1 r hr).2⟩,
                  fun r hr => ?_⟩
                rw [List.mem_cons] at hr
                cases hr with
                | inl hr =>
                  subst hr
                  refine ⟨⟨parsed, List.mem_cons_self _ _, by simp [coreOf, htt, hsk], rfl⟩,
                    ?_, rfl⟩
                  intro hc
                  exact TxType.noConfusion hc
                | inr hr => exact ⟨lift (ih2.2 r hr).1, (ih2.2 r hr).2⟩

theorem round1_ok (env : Env) (ds : List (Option Nat)) :
    ∀ (ps : List TxInfo), ds.length ≤ ps.length →
      ∃ r, round1 env ds ps = .ok r := by
  induction ds with
  | nil => intro ps h; exact ⟨([], []), rfl⟩
  | cons d ds ih =>
    intro ps h
    cases ps with
    | nil => simp at h
    | cons parsed ps2 =>
      obtain ⟨⟨rs2, sh2⟩, hr⟩ := ih ps2 (by simpa using h)
      rw [round1, hr]
      cases d with
      | none => exact ⟨_, rfl⟩
      | some data =>
        cases htt : parsed.txType with
        | public => exact ⟨_, rfl⟩
        | permission =>
          cases hsk : parsed.sharedKey with
          | none => exact ⟨_, rfl⟩
          | some sk =>
            cases hperm : env.recover data sk with
            | none =>
              simp only [hperm]
              exact ⟨_, rfl⟩
            | some perm =>
              simp only [hperm]
              exact ⟨_, rfl⟩

theorem round2_facts (env : Env) (fs : List (Option Nat)) :
    ∀ (sh rs : List TxInfo), round2 env fs sh = .ok rs →
      ∀ r ∈ rs, ∃ p ∈ sh, coreOf r = coreOf p ∧ r.pIdx = p.pIdx := by
  induction fs with
  | nil =>
    intro sh rs h
    simp only [round2, Except.ok.injEq] at h
    subst h
    simp
  | cons f fs ih =>
    intro sh rs h
    cases sh with
    | nil => simp [round2] at h
    | cons parsed sh2 =>
      rw [round2] at h
      cases hrec : round2 env fs sh2 with
      | error e => simp [hrec] at h
      | ok rest =>
        have ih2 := ih sh2 rest hrec
        have lift : ∀ {r : TxInfo},
            (∃ p ∈ sh2, coreOf r = coreOf p ∧ r.pIdx = p.pIdx) →
            ∃ p ∈ parsed :: sh2, coreOf r = coreOf p ∧ r.pIdx = p.pIdx := by
          rintro r ⟨p, hp, hc⟩
          exact ⟨p, List.mem_cons_of_mem _ hp, hc⟩
        cases f with
        | none =>
          simp only [hrec, Except.ok.injEq] at h
          subst h
          exact fun r hr => lift (ih2 r hr)
        | some file =>
          cases hperm : parsed.permission with
          | none => simp [hrec, hperm] at h
          | some perm =>
            cases hdk : perm.decryptionKeyBuf with
            | none =>
              simp only [hrec, hperm, hdk, Except.ok.injEq] at h
              subst h
              intro r hr
              rw [List.mem_cons] at hr
              cases hr with
              | inl hr => subst hr; exact ⟨parsed, List.mem_cons_self _ _, rfl, rfl⟩
              | inr hr => exact lift (ih2 r hr)
            | some dk =>
              cases hdec : env.decrypt file dk with
              | none =>
                simp only [hrec, hperm, hdk, hdec, Except.ok.injEq] at h
                subst h
                exact fun r hr => lift (ih2 r hr)
              | some plain =>
                simp only [hrec, hperm, hdk, hdec, Except.ok.injEq] at h
                subst h
                intro r hr
                rw [List.mem_cons] at hr
                cases hr with
                | inl hr => subst hr; exact ⟨parsed, List.mem_cons_self _ _, rfl, rfl⟩
                | inr hr => exact lift (ih2 r hr)

theorem round2_ok (env : Env) (fs : List (Option Nat)) :
    ∀ (sh : List TxInfo), fs.length ≤ sh.length →
      (∀ p ∈ sh, p.permission.isSome = true) →
      ∃ r, round2 env fs sh = .ok r := by
  induction fs with
  | nil => intro sh h hperm; exact ⟨[], rfl⟩
  | cons f fs ih =>
    intro sh h hperm
    cases sh with
    | nil => simp at h
    | cons parsed sh2 =>
      obtain ⟨rest, hr⟩ := ih sh2 (by simpa using h)
        (fun p hp => hperm p (List.mem_cons_of_mem _ hp))
      rw [round2, hr]
      cases f with
      | none => exact ⟨_, rfl⟩
      | some file =>
        cases hp : parsed.permission with
        | none =>
          have := hperm parsed (List.mem_cons_self _ _)
          rw [hp] at this
          simp at this
        | some perm =>
          cases hdk : perm.decryptionKeyBuf with
          | none =>
            simp only [hdk]
            exact ⟨_, rfl⟩
          | some dk =>
            cases hdec : env.decrypt file dk with
            | none =>
              simp only [hdk, hdec]
              exact ⟨_, rfl⟩
            | some plain =>
              simp only [hdk, hdec]
              exact ⟨_, rfl⟩

/-- The shape of the keeper call log of one `load` run: no call (nothing
parsed), just the first-round call, or the first-round call followed by the
second-round call for a non-empty shared queue. -/
theorem keeperCalls_shape (env : Env) (txs : List TxInput) :
    keeperCallLog env txs = [] ∨
    keeperCallLog env txs = [firstRoundKeys env txs] ∨
    (keeperCallLog env txs = [firstRoundKeys env txs, pluck (sharedOf env txs)] ∧
      sharedOf env txs ≠ []) := by
  rw [keeperCallLog, sharedOf, firstRoundKeys, loadTrace]
  by_cases h0 : (_parseTxs env txs).length = 0
  · simp [h0]
  · simp only [h0, reduceIte]
    cases hf1 : fetchFiles env (pluck (withPIdx (_parseTxs env txs))) with
    | error e => simp [hf1]
    | ok fetched =>
      simp only [hf1]
      by_cases h2 : fetched.length = 0
      · simp [h2]
      · simp only [h2, reduceIte]
        cases hr1 : round1 env fetched (withPIdx (_parseTxs env txs)) with
        | error e => simp [hr1]
        | ok rest =>
          obtain ⟨rs, sh⟩ := rest
          simp only [hr1]
          by_cases h3 : sh.length = 0
          · simp [h3]
          · simp only [h3, reduceIte]
            have hne : sh ≠ [] := by
              intro hc
              rw [hc] at h3
              exact h3 rfl
            cases hf2 : fetchFiles env (pluck sh) with
            | error e => simp [hf2, hne]
            | ok sharedFiles =>
              simp only [hf2]
              cases hr2 : round2 env sharedFiles sh with
              | error e => simp [hr2, hne]
              | ok rs2 => simp [hr2, hne]

/-- Claim C2: in one `load` run the keeper's multi-get is invoked at most
twice — once with the first-round key list, and a second time (with the
recovered permission records' file keys) only when at least one permission
record was recovered. -/
theorem c2_keeper_at_most_twice (env : Env) (txs : List TxInput) :
    (keeperCallLog env txs).length ≤ 2 ∧
    (keeperCallLog env txs = [] ∨
      keeperCallLog env txs = [firstRoundKeys env txs] ∨
      (keeperCallLog env txs = [firstRoundKeys env txs, pluck (sharedOf env txs)] ∧
        sharedOf env txs ≠ [])) ∧
    (∀ p ∈ sharedOf env txs, p.permission.isSome = true) := by
  have hshape := keeperCalls_shape env txs
  refine ⟨?_, hshape, ?_⟩
  · rcases hshape with h | h | ⟨h, _⟩ <;> simp [h]
  · intro p hp
    have hsh : ∀ rs sh fetched, round1 env fetched (withPIdx (_parseTxs env txs)) = .ok (rs, sh) →
        p ∈ sh → p.permission.isSome = true := by
      intro rs sh fetched hr1 hmem
      exact ((round1_facts env fetched (withPIdx (_parseTxs env txs)) rs sh hr1).2 p hmem).2.2
    rw [sharedOf, loadTrace] at hp
    by_cases h0 : (_parseTxs env txs).length = 0
    · simp [h0] at hp
    · simp only [h0, reduceIte] at hp
      cases hf1 : fetchFiles env (pluck (withPIdx (_parseTxs env txs))) with
      | error e => simp [hf1] at hp
      | ok fetched =>
        simp only [hf1] at hp
        by_cases h2 : fetched.length = 0
        · simp [h2] at hp
        · simp only [h2, reduceIte] at hp
          cases hr1 : round1 env fetched (withPIdx (_parseTxs env txs)) with
          | error e => simp [hr1] at hp
          | ok rest =>
            obtain ⟨rs, sh⟩ := rest
            simp only [hr1] at hp
            by_cases h3 : sh.length = 0
            · simp only [h3, reduceIte] at hp
              exact hsh rs sh fetched hr1 hp
            · simp only [h3, reduceIte] at hp
              cases hf2 : fetchFiles env (pluck sh) with
              | error e =>
                simp only [hf2] at hp
                exact hsh rs sh fetched hr1 hp
              | ok sharedFiles =>
                simp only [hf2] at hp
                cases hr2 : round2 env sharedFiles sh with
                | error e =>
                  simp only [hr2] at hp
                  exact hsh rs sh fetched hr1 hp
                | ok rs2 =>
                  simp only [hr2] at hp
                  exact hsh rs sh fetched hr1 hp

/-- Witness for C2 at a concrete two-transaction batch that reaches the
second round. -/
theorem c2_keeper_witness :
    (keeperCallLog env0 [TxInput.raw 2, TxInput.raw 1]).length ≤ 2 :=
  (c2_keeper_at_most_twice env0 [TxInput.raw 2, TxInput.raw 1]).1

/-- When every item entering the first round is public, the second-round
queue comes out empty, and every first-round result is public. -/
theorem round1_all_public (env : Env) (ds : List (Option Nat)) (ps rs sh : List TxInfo)
    (hpub : ∀ p ∈ ps, p.txType = TxType.public)
    (h : round1 env ds ps = .ok (rs, sh)) :
    sh = [] ∧ ∀ r ∈ rs, r.txType = TxType.public := by
  have hf := round1_facts env ds ps rs sh h
  constructor
  · rw [List.eq_nil_iff_forall_not_mem]
    intro r hr
    obtain ⟨⟨p, hp, hcore, _⟩, hnp, _⟩ := hf.2 r hr
    exact hnp ((congrArg Prod.fst hcore).trans (hpub p hp))
  · intro r hr
    exact (hf.1 r hr).2

/-- Claim C5: in streaming mode a `load` rejection (in particular a keeper
failure on a batched fetch) is surfaced by emitting a stage-level 'error'
event carrying the failure, and the per-unit completion callback runs so
the stage keeps accepting input — on the failure path it in fact runs
twice, once from the rejection handler and once more from the fulfillment
handler of the then-settled chain; a successful unit pushes its files
downstream and completes once. -/
theorem c5_transform_error_event (env : Env) (tx : TxInput) :
    (∀ e, env.getMany (firstRoundKeys env [tx]) = .error e →
      _parseTxs env [tx] ≠ [] →
      _transform env tx = ⟨[], [rethrowMsg e], 2⟩) ∧
    (∀ e, load env [tx] = .error e → _transform env tx = ⟨[], [e], 2⟩) ∧
    (∀ files, load env [tx] = .ok files → _transform env tx = ⟨files, [], 1⟩) := by
  refine ⟨?_, ?_, ?_⟩
  · intro e he hne
    have h0 : ¬((_parseTxs env [tx]).length = 0) := by
      simpa [List.length_eq_zero] using hne
    have hf : fetchFiles env (pluck (withPIdx (_parseTxs env [tx]))) =
        .error (rethrowMsg e) := by
      rw [firstRoundKeys] at he
      simp [fetchFiles, he]
    have hload : load env [tx] = .error (rethrowMsg e) := by
      rw [load, loadTrace]
      simp only [h0, reduceIte, hf]
    simp [_transform, hload]
  · intro e he
    simp [_transform, he]
  · intro files hf
    simp [_transform, hf]

/-- Witness for C5: a keeper that always fails makes the stage emit the
re-thrown error and still run the completion callback. -/
theorem c5_transform_witness :
    envErr.getMany (firstRoundKeys envErr [TxInput.raw 1]) = .error "boom" ∧
    _transform envErr (TxInput.raw 1) = ⟨[], [rethrowMsg "boom"], 2⟩ :=
  ⟨rfl, (c5_transform_error_event envErr (TxInput.raw 1)).1 "boom" rfl (by decide)⟩

/-- Claim C8: with no identity resolver configured, every surviving parsed
intent is public and carries no resolved identities (every non-public
intent is dropped before the first fetch because no shared key can be
derived), the second-round queue is always empty, and every loaded result
is public. -/
theorem c8_no_resolver_public_only (env : Env) (hL : env.lookup = none) :
    (∀ tx p, _parseTx env tx = some p →
      p.txType = TxType.public ∧ p.fromMatch = none ∧ p.toMatch = none) ∧
    (∀ txs, sharedOf env txs = []) ∧
    (∀ txs out, load env txs = .ok out → ∀ r ∈ out, r.txType = TxType.public) := by
  have hstep : ∀ parsed p, _processTxInfo env parsed = some p →
      p.txType = TxType.public ∧ p.fromMatch = none ∧ p.toMatch = none := by
    intro parsed p h
    rw [_processTxInfo] at h
    have hlp : _lookupParties env parsed.addressesFrom parsed.addressesTo =
        ⟨none, none⟩ := by
      rw [_lookupParties, hL]
    by_cases hval : env.validate parsed = false
    · simp [hval] at h
    · simp only [hval, reduceCtorEq, reduceIte, hlp] at h
      cases htt : parsed.txType with
      | public =>
        simp only [htt, reduceCtorEq, reduceIte, Option.some.injEq] at h
        subst h
        exact ⟨by simp [htt], rfl, rfl⟩
      | permission =>
        simp [htt, _getSharedKey] at h
  have hparse : ∀ tx p, _parseTx env tx = some p →
      p.txType = TxType.public ∧ p.fromMatch = none ∧ p.toMatch = none := by
    intro tx p h
    rw [_parseTx] at h
    cases hcand : candidateOf env tx with
    | none => simp [hcand] at h
    | some parsed =>
      simp only [hcand] at h
      exact hstep parsed p h
  have hAllPub : ∀ txs, ∀ q ∈ withPIdx (_parseTxs env txs),
      q.txType = TxType.public := by
    intro txs q hq
    obtain ⟨k, p, hk, hpmem, rfl⟩ := withPIdxFrom_mem 0 (_parseTxs env txs) q hq
    have hp2 : p ∈ _parseTxs env txs := hpmem
    rw [_parseTxs, List.mem_filterMap] at hp2
    obtain ⟨o, ho, hop⟩ := hp2
    rw [List.mem_map] at ho
    obtain ⟨tx, htx, rfl⟩ := ho
    exact (hparse tx p hop).1
  have hsh : ∀ txs, sharedOf env txs = [] := by
    intro txs
    rw [sharedOf, loadTrace]
    by_cases h0 : (_parseTxs env txs).length = 0
    · simp [h0]
    · simp only [h0, reduceIte]
      cases hf1 : fetchFiles env (pluck (withPIdx (_parseTxs env txs))) with
      | error e => simp [hf1]
      | ok fetched =>
        simp only [hf1]
        by_cases h2 : fetched.length = 0
        · simp [h2]
        · simp only [h2, reduceIte]
          cases hr1 : round1 env fetched (withPIdx (_parseTxs env txs)) with
          | error e => simp [hr1]
          | ok rest =>
            obtain ⟨rs, sh⟩ := rest
            obtain ⟨hshnil, _⟩ :=
              round1_all_public env fetched _ rs sh (hAllPub txs) hr1
            subst hshnil
            simp [hr1]
  refine ⟨hparse, hsh, ?_⟩
  intro txs out h r hr
  rw [load, loadTrace] at h
  by_cases h0 : (_parseTxs env txs).length = 0
  · simp only [h0, reduceIte] at h
    simp only [Except.ok.injEq] at h
    subst h
    simp at hr
  · simp only [h0, reduceIte] at h
    cases hf1 : fetchFiles env (pluck (withPIdx (_parseTxs env txs))) with
    | error e => simp [hf1] at h
    | ok fetched =>
      simp only [hf1] at h
      by_cases h2 : fetched.length = 0
      · simp only [h2, reduceIte, Except.ok.injEq] at h
        subst h
        simp at hr
      · simp only [h2, reduceIte] at h
        cases hr1 : round1 env fetched (withPIdx (_parseTxs env txs)) with
        | error e => simp [hr1] at h
        | ok rest =>
          obtain ⟨rs, sh⟩ := rest
          obtain ⟨hshnil, hrspub⟩ :=
            round1_all_public env fetched _ rs sh (hAllPub txs) hr1
          subst hshnil
          simp only [hr1, List.length_nil, reduceIte, Except.ok.injEq] at h
          subst h
          rw [finalize, List.mem_map] at hr
          obtain ⟨r1, hr1mem, rfl⟩ := hr
          rw [List.mem_insertionSort] at hr1mem
          exact hrspub r1 hr1mem

/-- Witness for C8: with no resolver, a batch holding a public and a
permission transaction loads only the public one. -/
theorem c8_no_resolver_witness :
    ({ env0 with lookup := none } : Env).lookup = none ∧
    sharedOf { env0 with lookup := none } [TxInput.raw 2, TxInput.raw 1] = [] :=
  ⟨rfl, (c8_no_resolver_public_only { env0 with lookup := none } rfl).2.1
    [TxInput.raw 2, TxInput.raw 1]⟩

/-- Claim C3: `load` rejects only when the storage collaborator itself
fails: with a keeper that answers every batched fetch (with lists of the
requested length, per its contract), `load` always resolves; a transaction
that fails to parse contributes nothing and changes nothing — dropping it
from the batch gives the identical result; and an empty batch resolves with
the empty collection rather than rejecting. -/
theorem c3_partial_failure_isolation (env : Env)
    (Hlen : ∀ ks vs, env.getMany ks = .ok vs → vs.length = ks.length)
    (Hok : ∀ ks, ∃ vs, env.getMany ks = .ok vs) :
    (∀ txs, ∃ out, load env txs = .ok out) ∧
    (∀ pre post bad, _parseTx env bad = none →
      load env (pre ++ bad :: post) = load env (pre ++ post)) ∧
    load env [] = .ok [] := by
  refine ⟨?_, ?_, ?_⟩
  · intro txs
    rw [load, loadTrace]
    by_cases h0 : (_parseTxs env txs).length = 0
    · exact ⟨[], by simp [h0]⟩
    · simp only [h0, reduceIte]
      obtain ⟨vs, hvs⟩ := Hok (pluck (withPIdx (_parseTxs env txs)))
      have hf1 : fetchFiles env (pluck (withPIdx (_parseTxs env txs))) = .ok vs := by
        simp [fetchFiles, hvs]
      simp only [hf1]
      by_cases h2 : vs.length = 0
      · exact ⟨[], by simp [h2]⟩
      · simp only [h2, reduceIte]
        have hlen1 : vs.length ≤ (withPIdx (_parseTxs env txs)).length := by
          rw [Hlen _ _ hvs]
          simp [pluck]
        obtain ⟨⟨rs, sh⟩, hr1⟩ := round1_ok env vs (withPIdx (_parseTxs env txs)) hlen1
        simp only [hr1]
        have hshperm := fun p hp =>
          ((round1_facts env vs (withPIdx (_parseTxs env txs)) rs sh hr1).2 p hp).2.2
        by_cases h3 : sh.length = 0
        · refine ⟨finalize rs, ?_⟩
          simp [h3]
        · simp only [h3, reduceIte]
          obtain ⟨vs2, hvs2⟩ := Hok (pluck sh)
          have hf2 : fetchFiles env (pluck sh) = .ok vs2 := by
            simp [fetchFiles, hvs2]
          simp only [hf2]
          have hlen2 : vs2.length ≤ sh.length := by
            rw [Hlen _ _ hvs2]
            simp [pluck]
          obtain ⟨rs2, hr2⟩ := round2_ok env vs2 sh hlen2 hshperm
          simp only [hr2]
          exact ⟨_, rfl⟩
  · intro pre post bad hbad
    have hps : _parseTxs env (pre ++ bad :: post) = _parseTxs env (pre ++ post) := by
      simp [_parseTxs, List.filterMap_map, List.filterMap_append,
        List.filterMap_cons, Function.comp, hbad]
    have htr : loadTrace env (pre ++ bad :: post) = loadTrace env (pre ++ post) := by
      unfold loadTrace
      rw [hps]
    simp only [load, htr]
  · rw [load, loadTrace]
    simp [_parseTxs]

/-- Witness for C3: under the concrete, always-answering keeper the batch
with one malformed transaction loads, and equals the batch without it. -/
theorem c3_partial_failure_witness :
    (∃ out, load env0 [TxInput.raw 1, TxInput.raw 0, TxInput.raw 2] = .ok out) ∧
    load env0 [TxInput.raw 1, TxInput.raw 0, TxInput.raw 2] =
      load env0 [TxInput.raw 1, TxInput.raw 2] ∧
    load env0 [] = .ok [] := by
  have hlen : ∀ ks vs, env0.getMany ks = .ok vs → vs.length = ks.length := by
    intro ks vs h
    cases h
    simp
  have hok : ∀ ks, ∃ vs, env0.getMany ks = .ok vs := fun ks => ⟨_, rfl⟩
  have h := c3_partial_failure_isolation env0 hlen hok
  exact ⟨h.1 [TxInput.raw 1, TxInput.raw 0, TxInput.raw 2],
    h.2.1 [TxInput.raw 1] [TxInput.raw 2] (TxInput.raw 0) (by decide), h.2.2⟩

/-- How `_processTxInfo` keys an item: a public intent is keyed by its
payload, a non-public survivor by the decryption of its payload under the
derived shared key. -/
theorem processTxInfo_key (env : Env) (parsed p : TxInfo)
    (h : _processTxInfo env parsed = some p) :
    (p.txType = TxType.public → p.key = some p.txData) ∧
    (p.txType ≠ TxType.public → ∃ sk d, p.sharedKey = some sk ∧
      env.decrypt p.txData sk = some d ∧ p.key = some d) := by
  rw [_processTxInfo] at h
  by_cases hval : env.validate parsed = false
  · simp [hval] at h
  · simp only [hval, reduceCtorEq, reduceIte] at h
    cases htt : parsed.txType with
    | public =>
      simp only [htt, reduceCtorEq, reduceIte, Option.some.injEq] at h
      subst h
      constructor
      · intro _
        rfl
      · intro hc
        exact absurd rfl hc
    | permission =>
      simp only [htt, reduceCtorEq, reduceIte] at h
      cases hskv : _getSharedKey env
          (_lookupParties env parsed.addressesFrom parsed.addressesTo).fromM
          (_lookupParties env parsed.addressesFrom parsed.addressesTo).toM with
      | none => simp [hskv] at h
      | some sk =>
        cases hdec : env.decrypt parsed.txData sk with
        | none => simp [hskv, hdec] at h
        | some d =>
          simp only [hskv, hdec, Option.some.injEq] at h
          subst h
          constructor
          · intro hc
            have hc2 : TxType.permission = TxType.public := hc
            exact TxType.noConfusion hc2
          · intro _
            exact ⟨sk, d, rfl, hdec, rfl⟩

/-- The keying fact lifted to every survivor of `_parseTxs`. -/
theorem parseTxs_key (env : Env) (txs : List TxInput) :
    ∀ p ∈ _parseTxs env txs,
      (p.txType = TxType.public → p.key = some p.txData) ∧
      (p.txType ≠ TxType.public → ∃ sk d, p.sharedKey = some sk ∧
        env.decrypt p.txData sk = some d ∧ p.key = some d) := by
  intro p hp
  rw [_parseTxs, List.mem_filterMap] at hp
  obtain ⟨o, ho, hop⟩ := hp
  rw [List.mem_map] at ho
  obtain ⟨tx, _, rfl⟩ := ho
  have hop2 : _parseTx env tx = some p := hop
  rw [_parseTx] at hop2
  cases hcand : candidateOf env tx with
  | none => simp [hcand] at hop2
  | some parsed =>
    simp only [hcand] at hop2
    exact processTxInfo_key env parsed p hop2

/-- Claim C4 as amended: the key list handed to the first batched fetch is
the lookup key of every surviving intent in the stable order of the parsed
batch — public payload keys and decrypted permission-key pointers
interleaved as the intents occur, not grouped public-first. -/
theorem c4_first_round_keys (env : Env) (txs : List TxInput) :
    firstRoundKeys env txs = (_parseTxs env txs).map (fun p => p.key) ∧
    (∀ ks, (keeperCallLog env txs).head? = some ks → ks = firstRoundKeys env txs) ∧
    (∀ p ∈ _parseTxs env txs,
      (p.txType = TxType.public → p.key = some p.txData) ∧
      (p.txType ≠ TxType.public → ∃ sk d, p.sharedKey = some sk ∧
        env.decrypt p.txData sk = some d ∧ p.key = some d)) := by
  refine ⟨?_, ?_, parseTxs_key env txs⟩
  · rw [firstRoundKeys, withPIdx, pluck_withPIdxFrom]
    rfl
  · intro ks hks
    rcases keeperCalls_shape env txs with h | h | ⟨h, _⟩
    · rw [h] at hks
      simp at hks
    · rw [h] at hks
      simp only [List.head?_cons, Option.some.injEq] at hks
      exact hks.symm
    · rw [h] at hks
      simp only [List.head?_cons, Option.some.injEq] at hks
      exact hks.symm

/-- Witness for the amended C4 at a concrete batch (permission transaction
first, public second): the actual first-round key list in parsed order,
also recovered from the instrumented call log. -/
theorem c4_first_round_keys_witness :
    firstRoundKeys env0 [TxInput.raw 2, TxInput.raw 1] =
      (_parseTxs env0 [TxInput.raw 2, TxInput.raw 1]).map (fun p => p.key) ∧
    [some 111, some 7] = firstRoundKeys env0 [TxInput.raw 2, TxInput.raw 1] :=
  ⟨(c4_first_round_keys env0 [TxInput.raw 2, TxInput.raw 1]).1,
    (c4_first_round_keys env0 [TxInput.raw 2, TxInput.raw 1]).2.1
      [some 111, some 7] (by decide)⟩

/-- Counterexample to C4 as stated: with the permission transaction ahead of
the public one, the first-round key list is in parsed (input) order — the
permission key precedes the public key — not public-keys-first as the spec
describes. -/
theorem c4_counterexample :
    keeperCallLog env0 [TxInput.raw 2, TxInput.raw 1] =
      [[some 111, some 7], [some 1213]] ∧
    firstRoundKeys env0 [TxInput.raw 2, TxInput.raw 1] = [some 111, some 7] ∧
    specFirstRoundKeys env0 [TxInput.raw 2, TxInput.raw 1] = [some 7, some 111] ∧
    firstRoundKeys env0 [TxInput.raw 2, TxInput.raw 1] ≠
      specFirstRoundKeys env0 [TxInput.raw 2, TxInput.raw 1] := by
  refine ⟨by decide, by decide, by decide, by decide⟩

theorem parseTxs_eq_filterMap (env : Env) (ts : List TxInput) :
    _parseTxs env ts = ts.filterMap (_parseTx env) := by
  simp [_parseTxs, List.filterMap_map, Function.comp]

theorem parsedWithPosFrom_map_snd (env : Env) (ts : List TxInput) :
    ∀ j, (parsedWithPosFrom env j ts).map Prod.snd = ts.filterMap (_parseTx env) := by
  induction ts with
  | nil => intro j; rfl
  | cons t ts ih =>
    intro j
    rw [parsedWithPosFrom]
    cases hp : _parseTx env t with
    | none => simp [hp, List.filterMap_cons, ih (j + 1)]
    | some p => simp [hp, List.filterMap_cons, ih (j + 1)]

theorem parsedWithPosFrom_fst_facts (env : Env) (ts : List TxInput) :
    ∀ j, List.Pairwise (· < ·) ((parsedWithPosFrom env j ts).map Prod.fst) ∧
      ∀ x ∈ (parsedWithPosFrom env j ts).map Prod.fst, j ≤ x := by
  induction ts with
  | nil => intro j; simp [parsedWithPosFrom]
  | cons t ts ih =>
    intro j
    rw [parsedWithPosFrom]
    cases hp : _parseTx env t with
    | none =>
      refine ⟨(ih (j + 1)).1, ?_⟩
      intro x hx
      have := (ih (j + 1)).2 x hx
      omega
    | some p =>
      simp only [List.map_cons]
      constructor
      · rw [List.pairwise_cons]
        refine ⟨?_, (ih (j + 1)).1⟩
        intro x hx
        have := (ih (j + 1)).2 x hx
        omega
      · intro x hx
        rw [List.mem_cons] at hx
        cases hx with
        | inl hx => omega
        | inr hx =>
          have := (ih (j + 1)).2 x hx
          omega

theorem parsedWithPosFrom_src (env : Env) (ts : List TxInput) :
    ∀ j, ∀ jp ∈ parsedWithPosFrom env j ts, j ≤ jp.1 ∧
      ∃ t, ts[jp.1 - j]? = some t ∧ _parseTx env t = some jp.2 := by
  induction ts with
  | nil => intro j jp hjp; simp [parsedWithPosFrom] at hjp
  | cons t ts ih =>
    intro j jp hjp
    rw [parsedWithPosFrom] at hjp
    cases hp : _parseTx env t with
    | none =>
      simp only [hp] at hjp
      obtain ⟨hj, t2, ht2, hpt⟩ := ih (j + 1) jp hjp
      refine ⟨by omega, t2, ?_, hpt⟩
      have heq : jp.1 - j = (jp.1 - (j + 1)) + 1 := by omega
      rw [heq]
      simpa using ht2
    | some p =>
      simp only [hp] at hjp
      rw [List.mem_cons] at hjp
      cases hjp with
      | inl h =>
        subst h
        exact ⟨le_refl j, t, by simp, hp⟩
      | inr h =>
        obtain ⟨hj, t2, ht2, hpt⟩ := ih (j + 1) jp h
        refine ⟨by omega, t2, ?_, hpt⟩
        have heq : jp.1 - j = (jp.1 - (j + 1)) + 1 := by omega
        rw [heq]
        simpa using ht2

/-- Monotonicity of the derived input position in the position marker. -/
theorem origPos_le (env : Env) (txs : List TxInput) (a b : TxInfo) (ia ib : Nat)
    (ha : a.pIdx = some ia) (hb : b.pIdx = some ib)
    (hia : ia < ((parsedWithPos env txs).map Prod.fst).length)
    (hib : ib < ((parsedWithPos env txs).map Prod.fst).length)
    (hle : pIdxLe a b) : origPos env txs a ≤ origPos env txs b := by
  rw [origPos, origPos, ha, hb]
  simp only [Option.getD_some]
  rw [List.getD_eq_getElem _ _ hia, List.getD_eq_getElem _ _ hib]
  have hfst := (parsedWithPosFrom_fst_facts env txs 0).1
  have hiaib : ia ≤ ib := by
    rw [pIdxLe, ha, hb] at hle
    simpa using hle
  rcases Nat.lt_or_ge ia ib with hlt | hge
  · exact le_of_lt ((List.pairwise_iff_getElem.mp hfst) ia ib hia hib hlt)
  · have heq : ia = ib := by omega
    subst heq
    exact le_refl _

/-- What sorting-then-unmarking guarantees for any result batch whose items
all carry the marker and core of some indexed parsed transaction. -/
theorem finalize_spec (env : Env) (txs : List TxInput) (R : List TxInfo)
    (HP : ∀ r ∈ R, ∃ p ∈ withPIdx (_parseTxs env txs),
      coreOf r = coreOf p ∧ r.pIdx = p.pIdx) :
    ∃ l : List TxInfo,
      finalize R = l.map clearPIdx ∧
      List.Pairwise pIdxLe l ∧
      List.Pairwise (· ≤ ·) (l.map (origPos env txs)) ∧
      (∀ r ∈ l, ∃ i jp, r.pIdx = some i ∧ (parsedWithPos env txs)[i]? = some jp ∧
        coreOf r = coreOf jp.2 ∧
        ∃ t, txs[jp.1]? = some t ∧ _parseTx env t = some jp.2) := by
  have hs : List.Pairwise pIdxLe (List.insertionSort pIdxLe R) :=
    List.sorted_insertionSort pIdxLe R
  have hmem : ∀ r ∈ List.insertionSort pIdxLe R,
      ∃ i jp, r.pIdx = some i ∧ (parsedWithPos env txs)[i]? = some jp ∧
        coreOf r = coreOf jp.2 ∧
        ∃ t, txs[jp.1]? = some t ∧ _parseTx env t = some jp.2 := by
    intro r hr
    rw [List.mem_insertionSort] at hr
    obtain ⟨p, hp, hcore, hidx⟩ := HP r hr
    obtain ⟨k, q, hk, hqmem, rfl⟩ := withPIdxFrom_mem 0 (_parseTxs env txs) p hp
    have hk2 : ((parsedWithPos env txs).map Prod.snd)[k]? = some q := by
      rw [parsedWithPos, parsedWithPosFrom_map_snd env txs 0, ← parseTxs_eq_filterMap]
      exact hk
    rw [List.getElem?_map] at hk2
    cases hjp : (parsedWithPos env txs)[k]? with
    | none =>
      rw [hjp] at hk2
      simp at hk2
    | some jp =>
      rw [hjp] at hk2
      simp only [Option.map_some', Option.some.injEq] at hk2
      refine ⟨k, jp, ?_, hjp, ?_, ?_⟩
      · rw [hidx]
        simp
      · rw [hcore, hk2]
        rfl
      · have hjpmem : jp ∈ parsedWithPos env txs := by
          rw [List.getElem?_eq_some] at hjp
          obtain ⟨h1, h2⟩ := hjp
          exact h2 ▸ List.getElem_mem h1
        obtain ⟨_, t, ht, hpt⟩ := parsedWithPosFrom_src env txs 0 jp hjpmem
        refine ⟨t, ?_, hpt⟩
        simpa using ht
  refine ⟨List.insertionSort pIdxLe R, rfl, hs, ?_, hmem⟩
  rw [List.pairwise_map]
  have hs2 := List.Pairwise.and_mem.mp hs
  refine hs2.imp ?_
  rintro a b ⟨hma, hmb, hab⟩
  obtain ⟨ia, jpa, hia, hjpa, _, _⟩ := hmem a hma
  obtain ⟨ib, jpb, hib, hjpb, _, _⟩ := hmem b hmb
  have hiag : ia < (parsedWithPos env txs).length :=
    (List.getElem?_eq_some.mp hjpa).1
  have hibg : ib < (parsedWithPos env txs).length :=
    (List.getElem?_eq_some.mp hjpb).1
  apply origPos_le env txs a b ia ib hia hib ?_ ?_ hab
  · simpa using hiag
  · simpa using hibg

/-- Claim C1 as amended: whenever `load` resolves, the collection is the
marker-erased image of a list that is sorted by the position marker; the
derived original input positions are therefore non-decreasing; and every
item carries the marker `i` of — and the unchanged core of — the `i`-th
surviving parsed transaction, which derives from the input transaction at
the recorded original position.  (The marker equals the item's index among
the successfully parsed transactions, not the raw input position, and it is
removed from every returned item.) -/
theorem c1_order_preservation (env : Env) (txs : List TxInput) (out : List TxInfo)
    (h : load env txs = .ok out) :
    ∃ l : List TxInfo,
      out = l.map clearPIdx ∧
      List.Pairwise pIdxLe l ∧
      List.Pairwise (· ≤ ·) (l.map (origPos env txs)) ∧
      (∀ r ∈ l, ∃ i jp, r.pIdx = some i ∧ (parsedWithPos env txs)[i]? = some jp ∧
        coreOf r = coreOf jp.2 ∧
        ∃ t, txs[jp.1]? = some t ∧ _parseTx env t = some jp.2) := by
  rw [load, loadTrace] at h
  by_cases h0 : (_parseTxs env txs).length = 0
  · simp only [h0, reduceIte, Except.ok.injEq] at h
    subst h
    exact ⟨[], rfl, List.Pairwise.nil, by simp, by simp⟩
  · simp only [h0, reduceIte] at h
    cases hf1 : fetchFiles env (pluck (withPIdx (_parseTxs env txs))) with
    | error e => simp [hf1] at h
    | ok fetched =>
      simp only [hf1] at h
      by_cases h2 : fetched.length = 0
      · simp only [h2, reduceIte, Except.ok.injEq] at h
        subst h
        exact ⟨[], rfl, List.Pairwise.nil, by simp, by simp⟩
      · simp only [h2, reduceIte] at h
        cases hr1 : round1 env fetched (withPIdx (_parseTxs env txs)) with
        | error e => simp [hr1] at h
        | ok rest =>
          obtain ⟨rs, sh⟩ := rest
          simp only [hr1] at h
          have hfacts := round1_facts env fetched (withPIdx (_parseTxs env txs)) rs sh hr1
          by_cases h3 : sh.length = 0
          · simp only [h3, reduceIte, Except.ok.injEq] at h
            subst h
            exact finalize_spec env txs rs (fun r hr => (hfacts.1 r hr).1)
          · simp only [h3, reduceIte] at h
            cases hf2 : fetchFiles env (pluck sh) with
            | error e => simp [hf2] at h
            | ok sharedFiles =>
              simp only [hf2] at h
              cases hr2 : round2 env sharedFiles sh with
              | error e => simp [hr2] at h
              | ok rs2 =>
                simp only [hr2, Except.ok.injEq] at h
                subst h
                apply finalize_spec
                intro r hr
                rw [List.mem_append] at hr
                cases hr with
                | inl hr => exact (hfacts.1 r hr).1
                | inr hr =>
                  obtain ⟨p1, hp1, hc1, hi1⟩ :=
                    round2_facts env sharedFiles sh rs2 hr2 r hr
                  obtain ⟨⟨p, hp, hc2, hi2⟩, _, _⟩ := hfacts.2 p1 hp1
                  exact ⟨p, hp, hc1.trans hc2, hi1.trans hi2⟩

/-- Witness for the amended C1: a batch whose first transaction fails to
parse still loads with the surviving item in order. -/
theorem c1_order_witness :
    load env0 [TxInput.raw 0, TxInput.raw 1] =
      .ok [{ pubProcessed with data := some 1007 }] ∧
    (∃ l, [({ pubProcessed with data := some 1007 } : TxInfo)] = l.map clearPIdx ∧
      List.Pairwise pIdxLe l ∧
      List.Pairwise (· ≤ ·) (l.map (origPos env0 [TxInput.raw 0, TxInput.raw 1])) ∧
      (∀ r ∈ l, ∃ i jp, r.pIdx = some i ∧
        (parsedWithPos env0 [TxInput.raw 0, TxInput.raw 1])[i]? = some jp ∧
        coreOf r = coreOf jp.2 ∧
        ∃ t, [TxInput.raw 0, TxInput.raw 1][jp.1]? = some t ∧
          _parseTx env0 t = some jp.2)) :=
  ⟨rfl,
    c1_order_preservation env0 [TxInput.raw 0, TxInput.raw 1]
      [{ pubProcessed with data := some 1007 }] rfl⟩

/-- Counterexample to C1 as stated: with an unparseable transaction at input
position 0, the surviving parse of the transaction at input position 1 is
assigned position marker 0 — the marker records the position among the
successfully parsed transactions, which does not match the original input
position of the transaction the item derives from. -/
theorem c1_counterexample :
    _parseTx env0 (TxInput.raw 0) = none ∧
    _parseTx env0 (TxInput.raw 1) = some pubProcessed ∧
    withPIdx (_parseTxs env0 [TxInput.raw 0, TxInput.raw 1]) =
      [{ pubProcessed with pIdx := some 0 }] ∧
    parsedWithPos env0 [TxInput.raw 0, TxInput.raw 1] = [(1, pubProcessed)] ∧
    origPos env0 [TxInput.raw 0, TxInput.raw 1]
      { pubProcessed with pIdx := some 0 } = 1 ∧
    (0 : Nat) ≠ 1 := by
  refine ⟨by decide, by decide, by decide, by decide, by decide, by decide⟩

/-- Claim C6: with a resolver configured, the sender is the first non-absent
lookup result in sender-address order; the recipient is the first non-absent
result in recipient-address order whose key differs from the chosen
sender's; consequently a chosen sender/recipient pair never has equal keys;
and turning every lookup rejection into a miss changes nothing (a rejection
counts as absent).  All lookups are joined index-aligned (`Q.allSettled`),
which the synchronous embedding renders as one map over the address list. -/
theorem c6_lookupParties (env : Env) (L : Nat → Bool → LookupOutcome)
    (hL : env.lookup = some L) (fromA toA : List (Option Nat)) :
    (_lookupParties env fromA toA).fromM = firstNonAbsent (lookupResults L fromA) ∧
    (_lookupParties env fromA toA).toM =
      firstDifferent (firstNonAbsent (lookupResults L fromA)) (lookupResults L toA) ∧
    (∀ f t, _lookupParties env fromA toA = ⟨some f, some t⟩ →
      f.key.value ≠ t.key.value) ∧
    _lookupParties { env with lookup := some (absorbRejects L) } fromA toA =
      _lookupParties env fromA toA := by
  have hmap : ∀ (M : Nat → Bool → LookupOutcome),
      (fromA ++ toA).map (fun f =>
        match f with
        | none => none
        | some a =>
          match M a true with
          | .reject => none
          | .fulfilled v => v) = lookupResults M fromA ++ lookupResults M toA := by
    intro M
    simp [lookupResults, List.map_append]
  have htake : ∀ (M : Nat → Bool → LookupOutcome),
      (lookupResults M fromA ++ lookupResults M toA).take fromA.length =
        lookupResults M fromA :=
    fun M => List.take_left' (by simp [lookupResults])
  have hdrop : ∀ (M : Nat → Bool → LookupOutcome),
      (lookupResults M fromA ++ lookupResults M toA).drop fromA.length =
        lookupResults M toA :=
    fun M => List.drop_left' (by simp [lookupResults])
  have hfrom : (_lookupParties env fromA toA).fromM =
      firstNonAbsent (lookupResults L fromA) := by
    simp only [_lookupParties, hL, hmap, htake, firstNonAbsent]
  have hto : (_lookupParties env fromA toA).toM =
      firstDifferent (firstNonAbsent (lookupResults L fromA)) (lookupResults L toA) := by
    simp only [_lookupParties, hL, hmap, htake, hdrop, firstDifferent, firstNonAbsent]
  refine ⟨hfrom, hto, ?_, ?_⟩
  · intro f t hft
    have h1 : (_lookupParties env fromA toA).toM = some t := by rw [hft]
    rw [hto] at h1
    obtain ⟨r, _, hr⟩ := List.exists_of_findSome?_eq_some h1
    have h2 : (_lookupParties env fromA toA).fromM = some f := by rw [hft]
    rw [hfrom] at h2
    cases r with
    | none => simp at hr
    | some r1 =>
      rw [h2] at hr
      have hr' : (if f.key.value ≠ r1.key.value then some r1 else none) = some t := hr
      by_cases hne : f.key.value ≠ r1.key.value
      · rw [if_pos hne] at hr'
        cases hr'
        exact hne
      · rw [if_neg hne] at hr'
        simp at hr'
  · simp only [_lookupParties, hL, hmap, lookupResults_absorb]

/-- Witness for C6: the tie-break characterization evaluated at a concrete
environment and one concrete sender/recipient address each. -/
theorem c6_lookupParties_witness :
    (_lookupParties env0 [some 1] [some 2]).fromM =
      firstNonAbsent (lookupResults lookup0 [some 1]) ∧
    (_lookupParties env0 [some 1] [some 2]).toM =
      firstDifferent (firstNonAbsent (lookupResults lookup0 [some 1]))
        (lookupResults lookup0 [some 2]) ∧
    (∀ f t, _lookupParties env0 [some 1] [some 2] = ⟨some f, some t⟩ →
      f.key.value ≠ t.key.value) ∧
    _lookupParties { env0 with lookup := some (absorbRejects lookup0) } [some 1] [some 2] =
      _lookupParties env0 [some 1] [some 2] :=
  c6_lookupParties env0 lookup0 rfl [some 1] [some 2]

/-- Claim C7: the shared-key derivation is symmetric in which side holds the
private key — if the from side exposes private material it is combined with
the to side's public material, otherwise the to side's private material is
combined with the from side's public material — and it returns `none`
whenever either identity is absent or neither pairing yields both a private
and a public component. -/
theorem c7_sharedKey_symmetric (env : Env) :
    (∀ t, _getSharedKey env none t = none) ∧
    (∀ f, _getSharedKey env f none = none) ∧
    (∀ f t p, f.key.priv = some p →
      _getSharedKey env (some f) (some t) =
        t.key.value.map (env.sharedEncryptionKey p)) ∧
    (∀ f t, f.key.priv = none →
      _getSharedKey env (some f) (some t) =
        match t.key.priv, f.key.value with
        | some p, some v => some (env.sharedEncryptionKey p v)
        | _, _ => none) ∧
    (∀ f t, ¬(f.key.priv.isSome = true ∧ t.key.value.isSome = true) →
      ¬(t.key.priv.isSome = true ∧ f.key.value.isSome = true) →
      _getSharedKey env (some f) (some t) = none) := by
  refine ⟨fun t => rfl, ?_, ?_, ?_, ?_⟩
  · intro f
    cases f <;> rfl
  · intro f t p hp
    cases hv : t.key.value <;> simp [_getSharedKey, hp, hv]
  · intro f t hp
    cases htp : t.key.priv <;> cases hfv : f.key.value <;>
      simp [_getSharedKey, hp, htp, hfv]
  · intro f t h1 h2
    cases hfp : f.key.priv <;> cases htv : t.key.value <;>
      cases htp : t.key.priv <;> cases hfv : f.key.value <;>
      simp [hfp, htv, htp, hfv] at h1 h2 ⊢ <;>
      simp [_getSharedKey, hfp, htv, htp, hfv]

/-- Witness for C7: the from side holds the private component 1, so the
derived key combines it with the to side's public component. -/
theorem c7_sharedKey_witness :
    (⟨⟨some 1, some 1⟩⟩ : Identity).key.priv = some 1 ∧
    _getSharedKey env0 (some ⟨⟨some 1, some 1⟩⟩) (some ⟨⟨some 2, some 2⟩⟩) =
      (⟨⟨some 2, some 2⟩⟩ : Identity).key.value.map (env0.sharedEncryptionKey 1) :=
  ⟨rfl, (c7_sharedKey_symmetric env0).2.2.1 ⟨⟨some 1, some 1⟩⟩ ⟨⟨some 2, some 2⟩⟩ 1 rfl⟩

/-- Claim C10: every identity lookup the pipeline issues requests private
key material (`wantPrivate = true`); and when a resolver is configured and a
batch element parses and validates, one lookup is issued for each (truthy)
address on both the sender and recipient side, in order. -/
theorem c10_lookups_want_private (env : Env) (txs : List TxInput) :
    (∀ c ∈ loadLookupCalls env txs, c.2 = true) ∧
    (∀ tx parsed L, env.lookup = some L → candidateOf env tx = some parsed →
      env.validate parsed = true →
      (txLookupCalls env tx).map Prod.fst =
        (parsed.addressesFrom ++ parsed.addressesTo).filterMap id) := by
  constructor
  · intro c hc
    rw [loadLookupCalls, List.mem_flatten] at hc
    obtain ⟨l, hl, hcl⟩ := hc
    rw [List.mem_map] at hl
    obtain ⟨tx, _, rfl⟩ := hl
    rcases hcand : candidateOf env tx with _ | parsed
    · simp [txLookupCalls, hcand] at hcl
    · rcases hval : env.validate parsed with _ | _
      · simp [txLookupCalls, hcand, hval] at hcl
      · rcases hlk : env.lookup with _ | L
        · simp [txLookupCalls, hcand, hval, hlk] at hcl
        · simp only [txLookupCalls, hcand, hval, hlk] at hcl
          rw [if_neg (by simp)] at hcl
          rw [lookupCallsOfAddrs, List.mem_filterMap] at hcl
          obtain ⟨f, _, hf⟩ := hcl
          cases f with
          | none => simp at hf
          | some a => cases hf; rfl
  · intro tx parsed L hlk hcand hval
    simp only [txLookupCalls, hcand, hval, hlk]
    rw [if_neg (by simp)]
    rw [lookupCallsOfAddrs, List.map_filterMap]
    congr 1
    funext f
    cases f <;> rfl

/-- Witness for C10: the lookups issued for the concrete permission
transaction cover exactly its truthy addresses. -/
theorem c10_lookups_witness :
    (txLookupCalls env0 (TxInput.raw 2)).map Prod.fst =
      (permInfo.addressesFrom ++ permInfo.addressesTo).filterMap id :=
  (c10_lookups_want_private env0 [TxInput.raw 2]).2 (TxInput.raw 2) permInfo lookup0
    rfl rfl rfl

/-- Claim C9: an input that the decoder's `validate` accepts is passed
through the parser unchanged, so feeding `load` the already-parsed intent
gives the same result as feeding the raw transaction it was parsed from,
in any batch position. -/
theorem c9_passthrough (env : Env) (p : TxInfo) (t : Nat)
    (hval : env.validate p = true) (hparse : env.parse (.raw t) = some p)
    (pre post : List TxInput) :
    load env (pre ++ TxInput.parsed p :: post) =
      load env (pre ++ TxInput.raw t :: post) := by
  have hx : _parseTx env (TxInput.parsed p) = _parseTx env (TxInput.raw t) := by
    simp [_parseTx, candidateOf, hval, hparse]
  have hps : _parseTxs env (pre ++ TxInput.parsed p :: post) =
      _parseTxs env (pre ++ TxInput.raw t :: post) := by
    simp only [_parseTxs, List.map_append, List.map_cons, hx]
  have htr : loadTrace env (pre ++ TxInput.parsed p :: post) =
      loadTrace env (pre ++ TxInput.raw t :: post) := by
    unfold loadTrace
    rw [hps]
  simp only [load, htr]

/-- Witness for C9: loading the pre-parsed public intent equals loading the
raw transaction it decodes from. -/
theorem c9_passthrough_witness :
    load env0 [TxInput.parsed pubInfo] = load env0 [TxInput.raw 1] :=
  c9_passthrough env0 pubInfo 1 rfl rfl [] []

end Chainloader
